import Mathlib

/-!
Verification of the CCTV video-analyzer core against its design document.

The Python sources are shallowly embedded below:
* `src/utils/time_utils.py`  — timecode parsing/formatting (strings are `List Char`);
* `src/utils/color_utils.py` — HSV color matching (a region is a flat list of
  HSV pixels; the BGR→HSV conversion performed by the decoding library is
  treated as already applied, since all claims are stated in HSV space);
* `src/video_worker.py`      — the analysis loop (`VideoWorker.run`), with the
  decoder idealized as: reported frame position = index of the next frame to
  read, `read` succeeds exactly on indices below the frame count, and the
  detector-plus-color-filter block abstracted as an oracle
  `infer : frame index → Option (validated detection count)` where `none`
  models the detector raising an exception on that frame;
* `src/gui.py` / `src/report_generator.py` — the evidence-log session state
  and the exported image filename.

Python machine floats are modelled as exact rationals; `int()` truncation,
floor division `//` and floor modulo `%` are modelled explicitly.
-/

namespace CCTV

/-! ### Python `int()` and string helpers (for `time_utils.hms_to_seconds`) -/

/-- Whitespace stripped by Python's `int()` (ASCII fragment: space, tab,
newline, carriage return, vertical tab, form feed). -/
def pyIsSpace (c : Char) : Bool :=
  c = ' ' || c = '\t' || c = '\n' || c = '\r' || c = Char.ofNat 11 || c = Char.ofNat 12

/-- Strip leading and trailing whitespace, as Python `int()` does before parsing. -/
def stripChars (l : List Char) : List Char :=
  ((l.dropWhile pyIsSpace).reverse.dropWhile pyIsSpace).reverse

/-- Numeric value of a decimal digit character. -/
def digitVal (c : Char) : ℕ := c.toNat - 48

/-- Value of a list of decimal digit characters, most significant first. -/
def parseDigits (l : List Char) : ℕ :=
  l.foldl (fun a c => 10 * a + digitVal c) 0

/-- Python `int()` digit-run validity: a nonempty run of decimal digits in
which single underscores may appear between two digits (`1_0` is valid,
`_1`, `1_`, `1__0` are not). -/
def pyDigitRun : List Char → Bool
  | [] => false
  | [c] => c.isDigit
  | c :: c2 :: rest =>
    c.isDigit && (if c2 = '_' then pyDigitRun rest else pyDigitRun (c2 :: rest))

/-- Parse a stripped, unsigned digit run as Python `int()` would. -/
def pyIntOfDigits (l : List Char) : Option ℤ :=
  if pyDigitRun l then some ((parseDigits (l.filter (fun c => c ≠ '_')) : ℕ) : ℤ)
  else none

/-- Python `int(text)` on the ASCII fragment: optional surrounding whitespace,
optional single sign, then an underscore-grouped decimal digit run.
`none` models `int` raising `ValueError`. -/
def pyInt (l : List Char) : Option ℤ :=
  match stripChars l with
  | [] => none
  | c :: rest =>
    if c = '+' then pyIntOfDigits rest
    else if c = '-' then (pyIntOfDigits rest).map (fun n => -n)
    else pyIntOfDigits (c :: rest)

/-- Python `str.split(sep)` for a single-character separator; on the empty
string it returns one empty part, like Python. -/
def splitOnChar (sep : Char) : List Char → List (List Char)
  | [] => [[]]
  | c :: rest =>
    if c = sep then [] :: splitOnChar sep rest
    else
      match splitOnChar sep rest with
      | [] => [[c]]
      | p :: ps => (c :: p) :: ps

/-! ### `time_utils.py` -/

/-- Embedding of `hms_to_seconds` (src/utils/time_utils.py lines 1-17):
split on `:`, require exactly three parts, parse each with `int()`
(a `ValueError` is caught and yields `-1`), reject minutes or seconds
at least 60 or any negative field, else return `h*3600 + m*60 + s`. -/
def hms_to_seconds (l : List Char) : ℤ :=
  match splitOnChar ':' l with
  | [p1, p2, p3] =>
    match pyInt p1, pyInt p2, pyInt p3 with
    | some h, some m, some s =>
      if 60 ≤ m ∨ 60 ≤ s ∨ h < 0 ∨ m < 0 ∨ s < 0 then -1
      else h * 3600 + m * 60 + s
    | _, _, _ => -1
  | _ => -1

/-- Decimal representation of a natural number, most significant digit first. -/
def natToChars (n : ℕ) : List Char :=
  if n = 0 then ['0']
  else ((Nat.digits 10 n).map (fun d => Char.ofNat (48 + d))).reverse

/-- Python `str` of an integer. -/
def intRepr (i : ℤ) : List Char :=
  if i < 0 then '-' :: natToChars i.natAbs else natToChars i.toNat

/-- Python format `{:02d}`: left-pad with zeros to width 2. -/
def pad2 (l : List Char) : List Char :=
  List.replicate (2 - l.length) '0' ++ l

/-- Python `int(x)` on a float: truncation toward zero. -/
def pyTrunc (x : ℚ) : ℤ := if 0 ≤ x then Rat.floor x else -(Rat.floor (-x))

/-- Formatting core of `seconds_to_hms` after the initial `int()` truncation:
Python `//` is floor division (`Int.fdiv`) and `%` is floor modulo (`Int.fmod`). -/
def intSecondsToHMS (n : ℤ) : List Char :=
  pad2 (intRepr (Int.fdiv n 3600)) ++ ':' ::
    (pad2 (intRepr (Int.fdiv (Int.fmod n 3600) 60)) ++ ':' :: pad2 (intRepr (Int.fmod n 60)))

/-- Embedding of `seconds_to_hms` (src/utils/time_utils.py lines 31-37). -/
def seconds_to_hms (x : ℚ) : List Char := intSecondsToHMS (pyTrunc x)

/-- Modelled from the spec's words (§4.1, §8 item 2): the literal pattern
`H:M:S` — three colon-separated nonempty decimal digit strings, with the
minutes and seconds values below 60. This is the acceptance language the
specification ascribes to `parseTimecode`; it is compared against the
language actually accepted by `hms_to_seconds`. -/
def specHMSPattern (l : List Char) : Bool :=
  match splitOnChar ':' l with
  | [p1, p2, p3] =>
    (!p1.isEmpty) && p1.all Char.isDigit &&
    (!p2.isEmpty) && p2.all Char.isDigit &&
    (!p3.isEmpty) && p3.all Char.isDigit &&
    parseDigits p2 < 60 && parseDigits p3 < 60
  | _ => false

/-! ### `color_utils.py` -/

/-- One pixel in hue-saturation-value space (OpenCV ranges H 0-179, S 0-255, V 0-255). -/
structure HSV where
  h : ℕ
  s : ℕ
  v : ℕ
  deriving DecidableEq

/-- Embedding of `get_hsv_range` (src/utils/color_utils.py lines 4-33):
fixed lookup table after lowercasing; unknown names give `none`. -/
def get_hsv_range (name : List Char) : Option (List (HSV × HSV)) :=
  let n := name.map Char.toLower
  if n = "white".data then some [(⟨0, 0, 180⟩, ⟨180, 50, 255⟩)]
  else if n = "black".data then some [(⟨0, 0, 0⟩, ⟨180, 150, 80⟩)]
  else if n = "red".data then
    some [(⟨0, 50, 50⟩, ⟨10, 255, 255⟩), (⟨170, 50, 50⟩, ⟨180, 255, 255⟩)]
  else if n = "blue".data then some [(⟨100, 50, 50⟩, ⟨140, 255, 255⟩)]
  else if n = "green".data then some [(⟨40, 50, 50⟩, ⟨80, 255, 255⟩)]
  else if n = "yellow".data then some [(⟨20, 50, 50⟩, ⟨40, 255, 255⟩)]
  else none

/-- Embedding of `cv2.inRange` on one pixel: inclusive bounds on all three channels. -/
def inRange (lo hi p : HSV) : Bool :=
  lo.h ≤ p.h && p.h ≤ hi.h && lo.s ≤ p.s && p.s ≤ hi.s && lo.v ≤ p.v && p.v ≤ hi.v

/-- Number of pixels of the region falling inside the union of the ranges
(the union of the per-range masks followed by `countNonZero`). -/
def countMatch (roi : List HSV) (ranges : List (HSV × HSV)) : ℕ :=
  (roi.filter (fun p => ranges.any (fun r => inRange r.1 r.2 p))).length

/-- Default `match_threshold` of `is_color_match` (Python literal `0.20`). -/
def match_threshold_default : ℚ := 1/5

/-- Embedding of `is_color_match` (src/utils/color_utils.py lines 35-65).
The region is the flattened pixel list (`size == 0` iff the list is empty). -/
def is_color_match (roi : List HSV) (name : List Char) (threshold : ℚ) : Bool :=
  if name.map Char.toLower = "none".data || roi.isEmpty then true
  else
    match get_hsv_range name with
    | none => true
    | some ranges =>
      decide ((countMatch roi ranges : ℚ) / (roi.length : ℚ) > threshold)

/-! ### Bounding-box clamping and region slicing (`video_worker.py` lines 78-86) -/

/-- Embedding of the clamping step: `x1, y1 = max(0,x1), max(0,y1)` and
`x2, y2 = min(w,x2), min(h,y2)`. -/
def clampBox (w h : ℕ) (x1 y1 x2 y2 : ℤ) : ℤ × ℤ × ℤ × ℤ :=
  (max 0 x1, max 0 y1, min (w : ℤ) x2, min (h : ℤ) y2)

/-- Normalization of one slice endpoint per CPython `slice.indices` for step 1:
negative endpoints count from the end, then the result is clipped into `[0, len]`. -/
def npSliceNorm (len : ℕ) (i : ℤ) : ℕ :=
  if i < 0 then (max 0 (i + (len : ℤ))).toNat else min i.toNat len

/-- Index set read by the basic slice `a:b` over an axis of length `len`. -/
def npSliceIdx (len : ℕ) (a b : ℤ) : List ℕ :=
  List.range' (npSliceNorm len a) (npSliceNorm len b - npSliceNorm len a)

/-- Row indices read by `frame[y1:y2, x1:x2]` after the clamping step. -/
def roiRowIdx (w h : ℕ) (x1 y1 x2 y2 : ℤ) : List ℕ :=
  npSliceIdx h (clampBox w h x1 y1 x2 y2).2.1 (clampBox w h x1 y1 x2 y2).2.2.2

/-- Column indices read by `frame[y1:y2, x1:x2]` after the clamping step. -/
def roiColIdx (w h : ℕ) (x1 y1 x2 y2 : ℤ) : List ℕ :=
  npSliceIdx w (clampBox w h x1 y1 x2 y2).1 (clampBox w h x1 y1 x2 y2).2.2.1

/-! ### `video_worker.py`: the analysis loop -/

/-- Run configuration of `VideoWorker` (the fields the loop consults).
`end_sec = none` models the `float('inf')` sentinel. -/
structure Config where
  start_sec : ℚ
  end_sec : Option ℚ
  frame_skip : ℤ
  fps : ℚ

/-- One emission of `frame_signal` (annotated frame, detection count, reported
decoder position, fps, internal read counter); the pixel buffer itself is not
modelled, no claim depends on its content. -/
structure FrameResult where
  detCount : ℕ
  srcPos : ℚ
  fps : ℚ
  counter : ℤ
  deriving DecidableEq

/-- The end-time test of line 56: `end_sec != float('inf') and t > end_sec`. -/
def endReached (cfg : Config) (t : ℚ) : Bool :=
  match cfg.end_sec with
  | some e => decide (t > e)
  | none => false

/-- The while-loop of `VideoWorker.run` (lines 42-124). `pos` is the decoder's
next-frame index, `counter` the Python `frame_counter`; the fuel argument only
bounds the recursion and never runs out when it starts at `nframes + 1`.
Cancellation (`_is_running`) is not exercised by any claim and is modelled as
never requested. The first component collects the emitted `FrameResult`s in
order; the second is true iff an uncaught detector exception escaped the loop
(in which case lines 126-130, release and `finished_signal`, never run). -/
def loop (cfg : Config) (infer : ℕ → Option ℕ) (opened : Bool) (nframes : ℕ) :
    ℕ → ℤ → ℕ → List FrameResult × Bool
  | _, _, 0 => ([], false)
  | pos, counter, fuel + 1 =>
    if opened = true ∧ pos < nframes then
      let counter1 := counter + 1
      let reported : ℚ := (pos : ℚ) + 1
      let t := (reported - 1) / cfg.fps
      if endReached cfg t then ([], false)
      else if cfg.frame_skip > 1 ∧ counter1 % cfg.frame_skip ≠ 0 then
        loop cfg infer opened nframes (pos + 1) counter1 fuel
      else
        match infer pos with
        | none => ([], true)
        | some n =>
          let rest := loop cfg infer opened nframes (pos + 1) counter1 fuel
          (⟨n, reported, cfg.fps, counter1⟩ :: rest.1, rest.2)
    else ([], false)

/-- The seek target of line 38: `int(self.start_sec * self.video_fps)`. -/
def startFrameIdx (cfg : Config) : ℤ := pyTrunc (cfg.start_sec * cfg.fps)

/-- Outcome of one `VideoWorker.run` call: the emitted `FrameResult`s and
whether `finished_signal` (the `Completion` event) was emitted. -/
structure RunOutput where
  events : List FrameResult
  completed : Bool
  deriving DecidableEq

/-- Embedding of `VideoWorker.run` (lines 30-130): optional initial seek with
the read counter set to the seek target minus one, then the frame loop;
`finished_signal` fires unless an exception escaped the loop. -/
def run (cfg : Config) (infer : ℕ → Option ℕ) (opened : Bool) (nframes : ℕ) : RunOutput :=
  let pos0 : ℕ := if cfg.start_sec > 0 then (startFrameIdx cfg).toNat else 0
  let counter0 : ℤ := if cfg.start_sec > 0 then startFrameIdx cfg - 1 else 0
  let r := loop cfg infer opened nframes pos0 counter0 (nframes + 1)
  ⟨r.1, !r.2⟩

/-! ### `gui.py` evidence session and `report_generator.py` filename -/

/-- One element of `evidence_log` (gui.py lines 722-728); the full-resolution
pixel buffer is not modelled, no claim depends on its content. -/
structure EvidenceEntry where
  frame_num : ℤ
  timestamp : List Char
  detection_count : ℕ
  filters_used : List (List Char × List Char)
  deriving DecidableEq

/-- The entry built by `add_evidence_to_gallery` (gui.py lines 710-728) from a
frame event: timestamp seconds are `(pos - 1) / fps` when the reported position
is positive and `0.0` otherwise; `frame_num` is `int(pos - 1)`. -/
def mkEvidenceEntry (pos fps : ℚ) (detCount : ℕ)
    (filters : List (List Char × List Char)) : EvidenceEntry :=
  ⟨pyTrunc (pos - 1),
   seconds_to_hms (if pos > 0 then (pos - 1) / fps else 0),
   detCount, filters⟩

/-- The session fields of `AnalyzerWindow` that the evidence invariant concerns. -/
structure SessionState where
  evidence_log : List EvidenceEntry
  total_evidence_frames : ℕ
  gallery_frame_counter : ℕ
  deriving DecidableEq

/-- Initial state set in `AnalyzerWindow.__init__` (gui.py lines 74-79). -/
def initSession : SessionState := ⟨[], 0, 0⟩

/-- Embedding of `add_evidence_to_gallery` on the session fields: append one
entry, bump both counters (gui.py lines 722, 765, 767). -/
def add_evidence_to_gallery (st : SessionState) (pos fps : ℚ) (detCount : ℕ)
    (filters : List (List Char × List Char)) : SessionState :=
  ⟨st.evidence_log ++ [mkEvidenceEntry pos fps detCount filters],
   st.total_evidence_frames + 1, st.gallery_frame_counter + 1⟩

/-- Embedding of the evidence part of `update_frame` (gui.py lines 693-707):
only frame events with a positive detection count touch the log. -/
def update_frame (st : SessionState) (detCount : ℕ) (pos fps : ℚ)
    (filters : List (List Char × List Char)) : SessionState :=
  if 0 < detCount then add_evidence_to_gallery st pos fps detCount filters else st

/-- Embedding of `clear_evidence_gallery` on the session fields
(gui.py lines 641-646). -/
def clear_evidence_gallery (_st : SessionState) : SessionState := ⟨[], 0, 0⟩

/-- Session operations that touch the evidence fields. `selectFile`
(gui.py line 466) and `startRun` (line 563) both invoke
`clear_evidence_gallery`; the explicit clear button (line 253) is
`clearGallery`. -/
inductive SessionOp where
  | frameEvent (detCount : ℕ) (pos fps : ℚ) (filters : List (List Char × List Char))
  | clearGallery
  | selectFile
  | startRun

/-- Effect of one session operation. -/
def applySessionOp (st : SessionState) : SessionOp → SessionState
  | .frameEvent n pos fps filters => update_frame st n pos fps filters
  | .clearGallery => clear_evidence_gallery st
  | .selectFile => clear_evidence_gallery st
  | .startRun => clear_evidence_gallery st

/-- State after a sequence of session operations from the initial state. -/
def runSession (ops : List SessionOp) : SessionState :=
  ops.foldl applySessionOp initSession

/-- Exported image filename for one entry (report_generator.py line 74):
`f"{timestamp.replace(':', '_')}_F{frame_num}.png"`. -/
def imgFilename (e : EvidenceEntry) : List Char :=
  (e.timestamp.map (fun c => if c = ':' then '_' else c)) ++
    "_F".data ++ intRepr e.frame_num ++ ".png".data

end CCTV

namespace CCTV

/-! ### Supporting lemmas -/

lemma npSliceNorm_le (len : ℕ) (i : ℤ) : npSliceNorm len i ≤ len := by
  unfold npSliceNorm
  split <;> omega

lemma mem_npSliceIdx_lt {len : ℕ} {a b : ℤ} {i : ℕ} (hi : i ∈ npSliceIdx len a b) :
    i < len := by
  unfold npSliceIdx at hi
  rw [List.mem_range'_1] at hi
  have hb := npSliceNorm_le len b
  omega

lemma applySessionOp_preserves_inv (st : SessionState) (op : SessionOp)
    (hinv : st.total_evidence_frames = st.evidence_log.length) :
    (applySessionOp st op).total_evidence_frames =
      (applySessionOp st op).evidence_log.length := by
  cases op with
  | frameEvent n pos fps filters =>
    by_cases hn : 0 < n
    · simp [applySessionOp, update_frame, add_evidence_to_gallery, hn, hinv]
    · simp [applySessionOp, update_frame, hn, hinv]
  | clearGallery => simp [applySessionOp, clear_evidence_gallery]
  | selectFile => simp [applySessionOp, clear_evidence_gallery]
  | startRun => simp [applySessionOp, clear_evidence_gallery]

lemma foldl_preserves_inv (ops : List SessionOp) :
    ∀ st : SessionState, st.total_evidence_frames = st.evidence_log.length →
      (ops.foldl applySessionOp st).total_evidence_frames =
        (ops.foldl applySessionOp st).evidence_log.length := by
  induction ops with
  | nil => intro st h; simpa using h
  | cons op rest ih => intro st h; exact ih _ (applySessionOp_preserves_inv st op h)

lemma endReached_false {cfg : Config} {t : ℚ} (h : endReached cfg t = false) :
    ∀ e, cfg.end_sec = some e → t ≤ e := by
  intro e he
  simp only [endReached, he, decide_eq_false_iff_not, not_lt] at h
  exact h

lemma rat_floor_eq_floor (q : ℚ) : Rat.floor q = ⌊q⌋ :=
  (Rat.floor_def' q).trans Rat.floor_def.symm

lemma pyTrunc_natCast (n : ℕ) : pyTrunc (n : ℚ) = n := by
  unfold pyTrunc
  rw [if_pos (by positivity), rat_floor_eq_floor, Int.floor_natCast]

lemma run_events_eq (cfg : Config) (infer : ℕ → Option ℕ) (opened : Bool) (nframes : ℕ) :
    (run cfg infer opened nframes).events =
      (loop cfg infer opened nframes
        (if cfg.start_sec > 0 then (startFrameIdx cfg).toNat else 0)
        (if cfg.start_sec > 0 then startFrameIdx cfg - 1 else 0) (nframes + 1)).1 := rfl

lemma run_completed_eq (cfg : Config) (infer : ℕ → Option ℕ) (opened : Bool) (nframes : ℕ) :
    (run cfg infer opened nframes).completed =
      !(loop cfg infer opened nframes
        (if cfg.start_sec > 0 then (startFrameIdx cfg).toNat else 0)
        (if cfg.start_sec > 0 then startFrameIdx cfg - 1 else 0) (nframes + 1)).2 := rfl

lemma loop_events_mem (cfg : Config) (infer : ℕ → Option ℕ) (opened : Bool) (nframes : ℕ) :
    ∀ (fuel pos : ℕ) (counter : ℤ) (ev : FrameResult),
      ev ∈ (loop cfg infer opened nframes pos counter fuel).1 →
      ∃ f : ℕ, pos ≤ f ∧ f < nframes ∧
        ev.srcPos = (f : ℚ) + 1 ∧
        ev.fps = cfg.fps ∧
        ev.counter = counter + ((f : ℤ) - (pos : ℤ)) + 1 ∧
        infer f = some ev.detCount ∧
        (∀ e, cfg.end_sec = some e → (f : ℚ) / cfg.fps ≤ e) ∧
        (1 < cfg.frame_skip → ev.counter % cfg.frame_skip = 0) := by
  intro fuel
  induction fuel with
  | zero =>
    intro pos counter ev hev
    simp only [loop, List.not_mem_nil] at hev
  | succ fuel ih =>
    intro pos counter ev hev
    simp only [loop] at hev
    by_cases hopen : opened = true ∧ pos < nframes
    case neg => rw [if_neg hopen] at hev; simp at hev
    rw [if_pos hopen] at hev
    by_cases hend : endReached cfg (((pos : ℚ) + 1 - 1) / cfg.fps) = true
    case pos => rw [if_pos hend] at hev; simp at hev
    rw [if_neg hend] at hev
    rw [Bool.not_eq_true] at hend
    by_cases hsk : 1 < cfg.frame_skip ∧ (counter + 1) % cfg.frame_skip ≠ 0
    · rw [if_pos hsk] at hev
      obtain ⟨f, h1, h2, h3, h4, h5, h6, h7, h8⟩ := ih (pos + 1) (counter + 1) ev hev
      refine ⟨f, by omega, h2, h3, h4, ?_, h6, h7, h8⟩
      rw [h5]
      push_cast
      ring
    · rw [if_neg hsk] at hev
      cases hinf : infer pos with
      | none => rw [hinf] at hev; simp at hev
      | some n =>
        rw [hinf] at hev
        rcases List.mem_cons.mp hev with heq | htail
        · subst heq
          refine ⟨pos, le_refl pos, hopen.2, rfl, rfl, by push_cast; ring, by rw [hinf], ?_, ?_⟩
          · intro e he
            have := endReached_false hend e he
            calc (pos : ℚ) / cfg.fps = ((pos : ℚ) + 1 - 1) / cfg.fps := by ring_nf
            _ ≤ e := this
          · intro hgt
            rcases not_and_or.mp hsk with hc | hc
            · exact absurd hgt hc
            · simpa using hc
        · obtain ⟨f, h1, h2, h3, h4, h5, h6, h7, h8⟩ := ih (pos + 1) (counter + 1) ev htail
          refine ⟨f, by omega, h2, h3, h4, ?_, h6, h7, h8⟩
          rw [h5]
          push_cast
          ring

lemma loop_raised_exists (cfg : Config) (infer : ℕ → Option ℕ) (opened : Bool) (nframes : ℕ) :
    ∀ (fuel pos : ℕ) (counter : ℤ),
      (loop cfg infer opened nframes pos counter fuel).2 = true →
      ∃ f : ℕ, infer f = none := by
  intro fuel
  induction fuel with
  | zero =>
    intro pos counter h
    simp only [loop] at h
    exact absurd h Bool.false_ne_true
  | succ fuel ih =>
    intro pos counter h
    simp only [loop] at h
    by_cases hopen : opened = true ∧ pos < nframes
    case neg => rw [if_neg hopen] at h; simp at h
    rw [if_pos hopen] at h
    by_cases hend : endReached cfg (((pos : ℚ) + 1 - 1) / cfg.fps) = true
    case pos => rw [if_pos hend] at h; simp at h
    rw [if_neg hend] at h
    by_cases hsk : 1 < cfg.frame_skip ∧ (counter + 1) % cfg.frame_skip ≠ 0
    · rw [if_pos hsk] at h
      exact ih (pos + 1) (counter + 1) h
    · rw [if_neg hsk] at h
      cases hinf : infer pos with
      | none => exact ⟨pos, hinf⟩
      | some n =>
        rw [hinf] at h
        exact ih (pos + 1) (counter + 1) h

lemma loop_head_first_emission (cfg : Config) (infer : ℕ → Option ℕ) (opened : Bool)
    (nframes : ℕ) :
    ∀ (fuel pos : ℕ) (counter : ℤ) (ev : FrameResult),
      (loop cfg infer opened nframes pos counter fuel).1.head? = some ev →
      ∃ f : ℕ, pos ≤ f ∧
        ev.srcPos = (f : ℚ) + 1 ∧
        ev.counter = counter + ((f : ℤ) - (pos : ℤ)) + 1 ∧
        (¬ 1 < cfg.frame_skip → f = pos) ∧
        (1 < cfg.frame_skip →
          ev.counter % cfg.frame_skip = 0 ∧
          ∀ g : ℕ, pos ≤ g → g < f →
            (counter + ((g : ℤ) - (pos : ℤ)) + 1) % cfg.frame_skip ≠ 0) := by
  intro fuel
  induction fuel with
  | zero =>
    intro pos counter ev hev
    simp only [loop, List.head?_nil] at hev
    exact absurd hev (by simp)
  | succ fuel ih =>
    intro pos counter ev hev
    simp only [loop] at hev
    by_cases hopen : opened = true ∧ pos < nframes
    case neg => rw [if_neg hopen] at hev; simp at hev
    rw [if_pos hopen] at hev
    by_cases hend : endReached cfg (((pos : ℚ) + 1 - 1) / cfg.fps) = true
    case pos => rw [if_pos hend] at hev; simp at hev
    rw [if_neg hend] at hev
    by_cases hsk : 1 < cfg.frame_skip ∧ (counter + 1) % cfg.frame_skip ≠ 0
    · rw [if_pos hsk] at hev
      obtain ⟨f, h1, h2, h3, h4, h5⟩ := ih (pos + 1) (counter + 1) ev hev
      refine ⟨f, by omega, h2, ?_, fun hns => absurd hsk.1 hns, fun hgt => ?_⟩
      · rw [h3]; push_cast; ring
      · obtain ⟨hm, hmin⟩ := h5 hgt
        refine ⟨hm, fun g hg1 hg2 => ?_⟩
        rcases Nat.lt_or_ge g (pos + 1) with hlt | hge
        · have hgp : g = pos := by omega
          subst hgp
          have : counter + ((g : ℤ) - (g : ℤ)) + 1 = counter + 1 := by ring
          rw [this]
          exact hsk.2
        · have := hmin g hge hg2
          intro hc
          apply this
          rw [show counter + 1 + ((g : ℤ) - ((pos : ℕ) + 1 : ℕ)) + 1 =
            counter + ((g : ℤ) - (pos : ℤ)) + 1 by push_cast; ring]
          exact hc
    · rw [if_neg hsk] at hev
      cases hinf : infer pos with
      | none => rw [hinf] at hev; simp at hev
      | some n =>
        rw [hinf] at hev
        rw [List.head?_cons, Option.some_inj] at hev
        subst hev
        refine ⟨pos, le_refl pos, rfl, by push_cast; ring, fun _ => rfl, fun hgt => ?_⟩
        constructor
        · rcases not_and_or.mp hsk with hc | hc
          · exact absurd hgt hc
          · simpa using hc
        · intro g hg1 hg2
          omega

/-! ### Claim theorems (first group) -/

/-- C7: `is_color_match` returns true unconditionally when the (lowercased)
color name is the sentinel "none", when the region is empty, or when the name
is unknown to the range table (`get_hsv_range` gives `none`); otherwise it
returns true iff the fraction of region pixels inside the union of the
color's HSV ranges is strictly greater than the threshold (the default
`match_threshold_default` models the Python literal `0.20`). -/
theorem is_color_match_characterization (roi : List HSV) (name : List Char) (th : ℚ) :
    is_color_match roi name th = true ↔
      (name.map Char.toLower = "none".data ∨ roi = [] ∨ get_hsv_range name = none ∨
        ∃ rs, get_hsv_range name = some rs ∧
          (countMatch roi rs : ℚ) / (roi.length : ℚ) > th) := by
  unfold is_color_match
  by_cases h1 : name.map Char.toLower = "none".data
  · simp [h1]
  · by_cases h2 : roi = []
    · simp [h1, h2]
    · have hne : roi.isEmpty = false := by
        cases roi with
        | nil => exact absurd rfl h2
        | cons a t => rfl
      cases hrg : get_hsv_range name with
      | none => simp [h1, hne, hrg, h2]
      | some rs => simp [h1, hne, hrg, h2]

/-- C8: after the clamping step of `VideoWorker.run`, the region-of-interest
slice `frame[y1:y2, x1:x2]` only ever reads row indices below the frame
height and column indices below the frame width, for every integer bounding
box — including boxes touching or exceeding the frame edges — so the crop
never indexes out of bounds. -/
theorem roi_slice_within_frame_bounds (w h : ℕ) (x1 y1 x2 y2 : ℤ) :
    ((roiRowIdx w h x1 y1 x2 y2).all fun r => decide (r < h)) = true ∧
    ((roiColIdx w h x1 y1 x2 y2).all fun c => decide (c < w)) = true := by
  constructor <;>
  · rw [List.all_eq_true]
    intro i hi
    simp only [roiRowIdx, roiColIdx] at hi
    simp only [decide_eq_true_eq]
    exact mem_npSliceIdx_lt hi

/-- C9: the session invariant `total_evidence_frames == len(evidence_log)`
holds after every sequence of session operations from the initial state:
both start at zero, a frame event with positive detection count appends one
entry and increments the counter by one, any other frame event changes
neither, and clearing the gallery (also invoked on new-run start and on file
selection) resets both together. -/
theorem evidence_invariant_total_eq_length (ops : List SessionOp) :
    (runSession ops).total_evidence_frames = (runSession ops).evidence_log.length :=
  foldl_preserves_inv ops initSession rfl

/-- C4 (amended): when the decoder cannot open the video, `VideoWorker.run`
emits no `FrameResult` and processes no frames, but it does NOT transition to
a `Failed` state with a `SourceUnreadable` error — no such path exists in the
code; the loop body is simply never entered and the run ends with the normal
completion signal. -/
theorem unopened_source_completes_normally (cfg : Config) (infer : ℕ → Option ℕ)
    (nframes : ℕ) :
    (run cfg infer false nframes).events = [] ∧
    (run cfg infer false nframes).completed = true := by
  have hloop : loop cfg infer false nframes
      (if cfg.start_sec > 0 then (startFrameIdx cfg).toNat else 0)
      (if cfg.start_sec > 0 then startFrameIdx cfg - 1 else 0) (nframes + 1) =
      ([], false) := by
    rw [loop]
    simp
  simp [run, hloop]

/-- C4 counterexample: a concrete run on an unopenable source emits no frame
events yet still produces the normal completion outcome (`completed = true`),
contradicting the claim that such a run ends in a `Failed` state rather than
a normal completed outcome. -/
theorem unopened_source_normal_completion_cex :
    (run ⟨0, none, 1, 30⟩ (fun _ => some 0) false 5).events = [] ∧
    (run ⟨0, none, 1, 30⟩ (fun _ => some 0) false 5).completed = true := by decide

/-- C3 counterexample: a concrete run whose detector raises on frame 0 of a
3-frame video emits no `FrameResult` — and the run does NOT terminate with
its completion event (`completed = false`), contradicting the claim that a
per-frame inference failure never aborts the run. -/
theorem detector_exception_no_completion_cex :
    (run ⟨0, none, 1, 30⟩ (fun _ => none) true 3).events = [] ∧
    (run ⟨0, none, 1, 30⟩ (fun _ => none) true 3).completed = false := by decide

/-- C6 counterexample: the input " 5:04:03" (leading space) is not of the
spec's pattern `H:M:S` of three colon-separated non-negative integers, yet
`hms_to_seconds` accepts it (Python `int()` strips whitespace), returning
18243 instead of the invalid-format signal `-1`. -/
theorem hms_accepts_outside_spec_pattern_cex :
    specHMSPattern " 5:04:03".data = false ∧
    hms_to_seconds " 5:04:03".data = 18243 ∧ (18243 : ℤ) ≠ -1 := by decide

/-- C1 counterexample: with `start_second = 10`, `video_fps = 30` but
`frame_skip_factor = 400`, the first processed frame of a 450-frame run is
the one with reported position 401 (read counter 400), whose reconstructed
timestamp formats to 00:00:13, not 00:00:10 — so the first processed frame's
timestamp is not 00:00:10 for every such run. -/
theorem first_emission_after_seek_large_skip_cex :
    (run ⟨10, none, 400, 30⟩ (fun _ => some 0) true 450).events.head? =
      some ⟨0, 401, 30, 400⟩ ∧
    seconds_to_hms ((401 - 1 : ℚ) / 30) = "00:00:13".data ∧
    "00:00:13".data ≠ "00:00:10".data := by with_unfolding_all decide

end CCTV

namespace CCTV

/-- C2: for every run with a finite end bound `end_sec = some e`, no emitted
`FrameResult` has a reconstructed time `(reported_position - 1) / video_fps`
exceeding `e`, regardless of the frame-skip factor — the end-time check of
line 56 is applied to every read frame before the skip decision, and the loop
stops at the first frame past the bound. -/
theorem no_emission_past_end_bound (cfg : Config) (infer : ℕ → Option ℕ)
    (opened : Bool) (nframes : ℕ) (e : ℚ) (ev : FrameResult)
    (hend : cfg.end_sec = some e)
    (hev : ev ∈ (run cfg infer opened nframes).events) :
    (ev.srcPos - 1) / cfg.fps ≤ e := by
  rw [run_events_eq] at hev
  obtain ⟨f, -, -, h3, -, -, -, h7, -⟩ :=
    loop_events_mem cfg infer opened nframes _ _ _ ev hev
  rw [h3, show ((f : ℚ) + 1 - 1) = (f : ℚ) from by ring]
  exact h7 e hend

/-- Witness for C2 at a concrete run: `end_sec = 5`, `fps = 10`, 100 frames. -/
theorem no_emission_past_end_bound_witness :
    (⟨0, 1, 10, 1⟩ : FrameResult) ∈
      (run ⟨0, some 5, 1, 10⟩ (fun _ => some 0) true 100).events ∧
    ((⟨0, 1, 10, 1⟩ : FrameResult).srcPos - 1) / (⟨0, some 5, 1, 10⟩ : Config).fps ≤ 5 :=
  ⟨by with_unfolding_all decide,
   no_emission_past_end_bound ⟨0, some 5, 1, 10⟩ (fun _ => some 0) true 100 5
     ⟨0, 1, 10, 1⟩ rfl (by with_unfolding_all decide)⟩

/-- C3 (amended): a detector exception on a frame indeed yields no
`FrameResult` for that frame — every emitted result comes from a frame where
inference returned normally — but the failure is not absorbed: `VideoWorker.run`
has no try/except around inference, so the exception escapes the loop and the
run does NOT terminate with its Completion event; a run completes iff no
processed frame raised (runs with a never-raising detector always complete,
and a non-completed run exhibits a raising frame). -/
theorem detector_exception_aborts_run :
    (∀ (cfg : Config) (infer : ℕ → Option ℕ) (opened : Bool) (nframes : ℕ)
        (ev : FrameResult), ev ∈ (run cfg infer opened nframes).events →
        ∃ f : ℕ, ev.srcPos = (f : ℚ) + 1 ∧ infer f = some ev.detCount) ∧
    (∀ (cfg : Config) (infer : ℕ → Option ℕ) (opened : Bool) (nframes : ℕ),
        (∀ f, infer f ≠ none) → (run cfg infer opened nframes).completed = true) ∧
    (∀ (cfg : Config) (infer : ℕ → Option ℕ) (opened : Bool) (nframes : ℕ),
        (run cfg infer opened nframes).completed = false → ∃ f : ℕ, infer f = none) := by
  refine ⟨?_, ?_, ?_⟩
  · intro cfg infer opened nframes ev hev
    rw [run_events_eq] at hev
    obtain ⟨f, -, -, h3, -, -, h6, -, -⟩ :=
      loop_events_mem cfg infer opened nframes _ _ _ ev hev
    exact ⟨f, h3, h6⟩
  · intro cfg infer opened nframes hno
    rw [run_completed_eq]
    cases hb : (loop cfg infer opened nframes
        (if cfg.start_sec > 0 then (startFrameIdx cfg).toNat else 0)
        (if cfg.start_sec > 0 then startFrameIdx cfg - 1 else 0) (nframes + 1)).2 with
    | false => rfl
    | true =>
      obtain ⟨f, hf⟩ := loop_raised_exists cfg infer opened nframes _ _ _ hb
      exact absurd hf (hno f)
  · intro cfg infer opened nframes hc
    rw [run_completed_eq] at hc
    rw [Bool.not_eq_false'] at hc
    exact loop_raised_exists cfg infer opened nframes _ _ _ hc

/-- Witness for C3 at concrete runs: an emitted result's frame had a normal
inference; a never-raising run completes; a non-completing run has a raising
frame. -/
theorem detector_exception_aborts_run_witness :
    (∃ f : ℕ, (⟨0, 1, 30, 1⟩ : FrameResult).srcPos = (f : ℚ) + 1 ∧
        (fun _ : ℕ => some 0) f = some (⟨0, 1, 30, 1⟩ : FrameResult).detCount) ∧
    (run ⟨0, none, 1, 30⟩ (fun _ => some 0) true 2).completed = true ∧
    (∃ f : ℕ, (fun _ : ℕ => (none : Option ℕ)) f = none) :=
  ⟨detector_exception_aborts_run.1 ⟨0, none, 1, 30⟩ (fun _ => some 0) true 2
      ⟨0, 1, 30, 1⟩ (by with_unfolding_all decide),
   detector_exception_aborts_run.2.1 ⟨0, none, 1, 30⟩ (fun _ => some 0) true 2
      (fun f => by simp),
   detector_exception_aborts_run.2.2 ⟨0, none, 1, 30⟩ (fun _ => none) true 3
      (by with_unfolding_all decide)⟩

/-- C10: for every evidence entry built from an emitted `FrameResult`, the
recorded `frame_num` equals `int(source_frame_position) - 1` (the 0-based
decoder index of the frame just read), and that number is the one embedded in
the exported image filename `..._F<frame_num>.png`; in a run without an
initial seek the `FrameResult`'s 1-based read counter exceeds it by one, so
`frame_num` is not that counter; and the entry's timestamp seconds are forced
to zero when the reported position is not positive. -/
theorem evidence_frame_number_provenance :
    (∀ (cfg : Config) (infer : ℕ → Option ℕ) (opened : Bool) (nframes : ℕ)
        (filters : List (List Char × List Char)) (ev : FrameResult),
        ev ∈ (run cfg infer opened nframes).events →
        (mkEvidenceEntry ev.srcPos ev.fps ev.detCount filters).frame_num =
          pyTrunc ev.srcPos - 1 ∧
        imgFilename (mkEvidenceEntry ev.srcPos ev.fps ev.detCount filters) =
          ((mkEvidenceEntry ev.srcPos ev.fps ev.detCount filters).timestamp.map
            (fun c => if c = ':' then '_' else c)) ++
            "_F".data ++ intRepr (pyTrunc ev.srcPos - 1) ++ ".png".data) ∧
    (∀ (cfg : Config) (infer : ℕ → Option ℕ) (opened : Bool) (nframes : ℕ)
        (ev : FrameResult), ¬ cfg.start_sec > 0 →
        ev ∈ (run cfg infer opened nframes).events →
        pyTrunc ev.srcPos - 1 = ev.counter - 1 ∧ pyTrunc ev.srcPos - 1 ≠ ev.counter) ∧
    (∀ (pos fps : ℚ) (n : ℕ) (filters : List (List Char × List Char)), ¬ pos > 0 →
        (mkEvidenceEntry pos fps n filters).timestamp = "00:00:00".data) := by
  have hpt : ∀ (x : ℚ) (f : ℕ), x = (f : ℚ) + 1 →
      pyTrunc (x - 1) = (f : ℤ) ∧ pyTrunc x = (f : ℤ) + 1 := by
    intro x f hx
    constructor
    · rw [hx, show ((f : ℚ) + 1 - 1) = (f : ℚ) from by ring, pyTrunc_natCast]
    · rw [hx, show ((f : ℚ) + 1) = ((f + 1 : ℕ) : ℚ) from by push_cast; ring,
        pyTrunc_natCast]
      push_cast
      ring
  refine ⟨?_, ?_, ?_⟩
  · intro cfg infer opened nframes filters ev hev
    rw [run_events_eq] at hev
    obtain ⟨f, -, -, h3, -, -, -, -, -⟩ :=
      loop_events_mem cfg infer opened nframes _ _ _ ev hev
    obtain ⟨ht1, ht2⟩ := hpt ev.srcPos f h3
    have hfn : (mkEvidenceEntry ev.srcPos ev.fps ev.detCount filters).frame_num =
        pyTrunc ev.srcPos - 1 := by
      simp only [mkEvidenceEntry]
      rw [ht1, ht2]
      ring
    refine ⟨hfn, ?_⟩
    unfold imgFilename
    rw [hfn]
  · intro cfg infer opened nframes ev hstart hev
    rw [run_events_eq, if_neg hstart, if_neg hstart] at hev
    obtain ⟨f, -, -, h3, -, h5, -, -, -⟩ :=
      loop_events_mem cfg infer opened nframes _ _ _ ev hev
    obtain ⟨-, ht2⟩ := hpt ev.srcPos f h3
    constructor
    · rw [ht2, h5]
      push_cast
      ring
    · rw [ht2, h5]
      push_cast
      omega
  · intro pos fps n filters hpos
    simp only [mkEvidenceEntry]
    rw [if_neg hpos]
    with_unfolding_all decide

/-- Witness for C10 at a concrete no-seek run and a concrete non-positive
position. -/
theorem evidence_frame_number_provenance_witness :
    ((mkEvidenceEntry (⟨1, 1, 10, 1⟩ : FrameResult).srcPos
        (⟨1, 1, 10, 1⟩ : FrameResult).fps
        (⟨1, 1, 10, 1⟩ : FrameResult).detCount []).frame_num =
      pyTrunc (⟨1, 1, 10, 1⟩ : FrameResult).srcPos - 1) ∧
    (pyTrunc (⟨1, 1, 10, 1⟩ : FrameResult).srcPos - 1 ≠
      (⟨1, 1, 10, 1⟩ : FrameResult).counter) ∧
    (mkEvidenceEntry 0 30 2 []).timestamp = "00:00:00".data :=
  ⟨(evidence_frame_number_provenance.1 ⟨0, none, 1, 10⟩ (fun _ => some 1) true 2 []
      ⟨1, 1, 10, 1⟩ (by with_unfolding_all decide)).1,
   (evidence_frame_number_provenance.2.1 ⟨0, none, 1, 10⟩ (fun _ => some 1) true 2
      ⟨1, 1, 10, 1⟩ (by norm_num) (by with_unfolding_all decide)).2,
   evidence_frame_number_provenance.2.2 0 30 2 [] (by norm_num)⟩

/-- C1 (amended): with `start_second = 10` and `video_fps = 30` the engine
seeks to frame index `floor(10 * 30) = 300` with the read counter at 299, so
the first emitted `FrameResult` reads a frame index in `[300, 330)` whenever
`frame_skip_factor ≤ 30`, and its reconstructed timestamp
`(reported_position - 1) / video_fps` formats exactly to 00:00:10; with a
larger skip factor the first processed frame can land later (see the
counterexample theorem). -/
theorem first_emission_after_seek (endOpt : Option ℚ) (skip : ℤ) (nframes : ℕ)
    (infer : ℕ → Option ℕ) (ev : FrameResult)
    (hskip : skip ≤ 30)
    (hhead : (run ⟨10, endOpt, skip, 30⟩ infer true nframes).events.head? = some ev) :
    (∃ f : ℕ, 300 ≤ f ∧ f < 330 ∧ ev.srcPos = (f : ℚ) + 1) ∧
    seconds_to_hms ((ev.srcPos - 1) / 30) = "00:00:10".data := by
  have hstart : (⟨10, endOpt, skip, 30⟩ : Config).start_sec > 0 := by norm_num
  have hsf : startFrameIdx ⟨10, endOpt, skip, 30⟩ = 300 := by
    show pyTrunc ((10 : ℚ) * 30) = 300
    with_unfolding_all decide
  rw [run_events_eq, if_pos hstart, if_pos hstart, hsf,
    show ((300 : ℤ)).toNat = 300 from by decide,
    show (300 : ℤ) - 1 = 299 from by decide] at hhead
  obtain ⟨f, h1, h2, h3, h4, h5⟩ :=
    loop_head_first_emission _ _ _ _ _ _ _ _ hhead
  have hcount : ev.counter = (f : ℤ) := by
    rw [h3]
    push_cast
    ring
  have hf330 : f < 330 := by
    by_cases hgt : 1 < skip
    · obtain ⟨hm, hmin⟩ := h5 hgt
      set k : ℕ := skip.toNat with hkdef
      have hk : (k : ℤ) = skip := Int.toNat_of_nonneg (by omega)
      have hk2 : 2 ≤ k := by omega
      have hk30 : k ≤ 30 := by omega
      set q : ℕ := 299 / k with hqdef
      have hgm : (k * (q + 1)) % k = 0 := Nat.mul_mod_right k (q + 1)
      have hdm : k * q + 299 % k = 299 := Nat.div_add_mod 299 k
      have hml : 299 % k < k := Nat.mod_lt _ (by omega)
      have hgeq : k * (q + 1) = k * q + k := by ring
      by_contra hc
      push_neg at hc
      have hgf : k * (q + 1) < f := by omega
      have hne := hmin (k * (q + 1)) (by omega) hgf
      apply hne
      rw [show (299 : ℤ) + (((k * (q + 1) : ℕ) : ℤ) - (300 : ℕ)) + 1 =
        ((k * (q + 1) : ℕ) : ℤ) from by push_cast; ring]
      show ((k * (q + 1) : ℕ) : ℤ) % skip = 0
      rw [← hk]
      exact_mod_cast hgm
    · have := h4 hgt
      omega
  have hts : ev.srcPos - 1 = ((f : ℕ) : ℚ) := by
    rw [h2]
    ring
  have htrunc : pyTrunc ((f : ℚ) / 30) = 10 := by
    unfold pyTrunc
    rw [if_pos (by positivity), rat_floor_eq_floor,
      show ((30 : ℚ)) = ((30 : ℕ) : ℚ) from by norm_num,
      Rat.floor_natCast_div_natCast]
    omega
  refine ⟨⟨f, h1, hf330, h2⟩, ?_⟩
  rw [hts]
  unfold seconds_to_hms
  rw [htrunc]
  with_unfolding_all decide

/-- Witness for C1 at a concrete run: skip 7, 310 frames; the first emission
is frame index 301 with reported position 302 and timestamp 00:00:10. -/
theorem first_emission_after_seek_witness :
    ((∃ f : ℕ, 300 ≤ f ∧ f < 330 ∧
        (⟨1, 302, 30, 301⟩ : FrameResult).srcPos = (f : ℚ) + 1) ∧
      seconds_to_hms (((⟨1, 302, 30, 301⟩ : FrameResult).srcPos - 1) / 30) =
        "00:00:10".data) :=
  first_emission_after_seek none 7 310 (fun _ => some 1) ⟨1, 302, 30, 301⟩
    (by norm_num) (by with_unfolding_all decide)

end CCTV

namespace CCTV

/-! ### Digit-string lemmas for the timecode round trip -/

lemma digit_char_isDigit {d : ℕ} (hd : d < 10) :
    (Char.ofNat (48 + d)).isDigit = true := by
  interval_cases d <;> decide

lemma digitVal_digit_char {d : ℕ} (hd : d < 10) :
    digitVal (Char.ofNat (48 + d)) = d := by
  interval_cases d <;> decide

lemma parseDigits_append_singleton (l : List Char) (c : Char) :
    parseDigits (l ++ [c]) = 10 * parseDigits l + digitVal c := by
  simp [parseDigits, List.foldl_append]

lemma parseDigits_rev_map : ∀ ds : List ℕ, (∀ d ∈ ds, d < 10) →
    parseDigits ((ds.map (fun d => Char.ofNat (48 + d))).reverse) = Nat.ofDigits 10 ds := by
  intro ds
  induction ds with
  | nil => intro; simp [parseDigits, Nat.ofDigits_nil]
  | cons d t ih =>
    intro hlt
    rw [List.map_cons, List.reverse_cons, parseDigits_append_singleton,
      ih (fun x hx => hlt x (List.mem_cons_of_mem _ hx)),
      digitVal_digit_char (hlt d (List.mem_cons_self d t)), Nat.ofDigits_cons]
    ring

lemma parseDigits_natToChars (n : ℕ) : parseDigits (natToChars n) = n := by
  unfold natToChars
  by_cases h : n = 0
  · rw [if_pos h, h]
    decide
  · rw [if_neg h,
      parseDigits_rev_map _ (fun d hd => Nat.digits_lt_base (by norm_num) hd),
      Nat.ofDigits_digits]

lemma natToChars_all_digit (n : ℕ) : ∀ c ∈ natToChars n, c.isDigit = true := by
  unfold natToChars
  split
  · intro c hc
    rw [List.mem_singleton] at hc
    rw [hc]
    decide
  · intro c hc
    simp only [List.mem_reverse, List.mem_map] at hc
    obtain ⟨d, hd, rfl⟩ := hc
    exact digit_char_isDigit (Nat.digits_lt_base (by norm_num) hd)

lemma natToChars_ne_nil (n : ℕ) : natToChars n ≠ [] := by
  unfold natToChars
  split
  · simp
  · next h =>
    simp only [ne_eq, List.reverse_eq_nil_iff, List.map_eq_nil_iff]
    exact Nat.digits_ne_nil_iff_ne_zero.mpr h

lemma pad2_all_digit {l : List Char} (h : ∀ c ∈ l, c.isDigit = true) :
    ∀ c ∈ pad2 l, c.isDigit = true := by
  intro c hc
  unfold pad2 at hc
  rcases List.mem_append.mp hc with hrep | hl
  · rw [List.eq_of_mem_replicate hrep]
    decide
  · exact h c hl

lemma pad2_ne_nil {l : List Char} (h : l ≠ []) : pad2 l ≠ [] := by
  unfold pad2
  intro hc
  exact h (List.append_eq_nil.mp hc).2

lemma parseDigits_zero_cons (m : List Char) :
    parseDigits ('0' :: m) = parseDigits m := by
  simp [parseDigits, digitVal]

lemma parseDigits_pad2 (l : List Char) : parseDigits (pad2 l) = parseDigits l := by
  unfold pad2
  generalize 2 - l.length = k
  induction k with
  | zero => simp
  | succ k ih =>
    rw [List.replicate_succ, List.cons_append, parseDigits_zero_cons, ih]

lemma isDigit_props {c : Char} (h : c.isDigit = true) :
    pyIsSpace c = false ∧ c ≠ '+' ∧ c ≠ '-' ∧ c ≠ '_' ∧ c ≠ ':' := by
  have hne : ∀ x : Char, x.isDigit = false → c ≠ x := by
    intro x hx heq
    rw [heq, hx] at h
    exact Bool.false_ne_true h
  refine ⟨?_, hne _ (by decide), hne _ (by decide), hne _ (by decide), hne _ (by decide)⟩
  have h1 := hne ' ' (by decide)
  have h2 := hne '\t' (by decide)
  have h3 := hne '\n' (by decide)
  have h4 := hne '\r' (by decide)
  have h5 := hne (Char.ofNat 11) (by decide)
  have h6 := hne (Char.ofNat 12) (by decide)
  simp [pyIsSpace, h1, h2, h3, h4, h5, h6]

lemma dropWhile_all_false {p : Char → Bool} {l : List Char}
    (h : ∀ c ∈ l, p c = false) : l.dropWhile p = l := by
  cases l with
  | nil => rfl
  | cons c t =>
    rw [List.dropWhile_cons, h c (List.mem_cons_self c t)]
    simp

lemma stripChars_of_digits {l : List Char} (h : ∀ c ∈ l, c.isDigit = true) :
    stripChars l = l := by
  unfold stripChars
  have h1 : ∀ c ∈ l, pyIsSpace c = false := fun c hc => (isDigit_props (h c hc)).1
  rw [dropWhile_all_false h1,
    dropWhile_all_false (fun c hc => h1 c (List.mem_reverse.mp hc)),
    List.reverse_reverse]

lemma pyDigitRun_of_digits : ∀ l : List Char, l ≠ [] →
    (∀ c ∈ l, c.isDigit = true) → pyDigitRun l = true := by
  intro l
  induction l with
  | nil => intro h; exact absurd rfl h
  | cons c t ih =>
    intro _ h
    cases t with
    | nil =>
      show pyDigitRun [c] = true
      rw [show pyDigitRun [c] = c.isDigit from rfl]
      exact h c (List.mem_cons_self c [])
    | cons c2 r =>
      have hc2 : c2 ≠ '_' :=
        (isDigit_props (h c2 (List.mem_cons_of_mem c (List.mem_cons_self c2 r)))).2.2.2.1
      rw [show pyDigitRun (c :: c2 :: r) =
        (c.isDigit && if c2 = '_' then pyDigitRun r else pyDigitRun (c2 :: r)) from rfl]
      rw [if_neg hc2, h c (List.mem_cons_self c (c2 :: r)),
        ih (by simp) (fun x hx => h x (List.mem_cons_of_mem c hx))]
      rfl

lemma filter_underscore_of_digits {l : List Char} (h : ∀ c ∈ l, c.isDigit = true) :
    l.filter (fun c => c ≠ '_') = l := by
  rw [List.filter_eq_self]
  intro a ha
  have := (isDigit_props (h a ha)).2.2.2.1
  simp [this]

lemma pyInt_digits {l : List Char} (hne : l ≠ []) (h : ∀ c ∈ l, c.isDigit = true) :
    pyInt l = some ((parseDigits l : ℕ) : ℤ) := by
  unfold pyInt
  rw [stripChars_of_digits h]
  cases l with
  | nil => exact absurd rfl hne
  | cons c t =>
    have hc := isDigit_props (h c (List.mem_cons_self c t))
    show (if c = '+' then pyIntOfDigits t
      else if c = '-' then (pyIntOfDigits t).map (fun n => -n)
      else pyIntOfDigits (c :: t)) = _
    rw [if_neg hc.2.1, if_neg hc.2.2.1]
    unfold pyIntOfDigits
    rw [pyDigitRun_of_digits _ (by simp) h]
    rw [if_pos rfl, filter_underscore_of_digits h]

lemma splitOnChar_of_not_mem {sep : Char} : ∀ {l : List Char},
    (∀ c ∈ l, c ≠ sep) → splitOnChar sep l = [l] := by
  intro l
  induction l with
  | nil => intro; rfl
  | cons c t ih =>
    intro h
    simp only [splitOnChar]
    rw [if_neg (h c (List.mem_cons_self c t)),
      ih (fun x hx => h x (List.mem_cons_of_mem c hx))]

lemma splitOnChar_append {sep : Char} : ∀ (a b : List Char), (∀ c ∈ a, c ≠ sep) →
    splitOnChar sep (a ++ sep :: b) = a :: splitOnChar sep b := by
  intro a
  induction a with
  | nil =>
    intro b _
    rw [List.nil_append]
    simp [splitOnChar]
  | cons c t ih =>
    intro b h
    rw [List.cons_append]
    simp only [splitOnChar]
    rw [if_neg (h c (List.mem_cons_self c t)),
      ih b (fun x hx => h x (List.mem_cons_of_mem c hx))]

lemma intRepr_natCast (n : ℕ) : intRepr (n : ℤ) = natToChars n := by
  unfold intRepr
  rw [if_neg (by omega)]
  simp

end CCTV

namespace CCTV

lemma hms_accepts (l p1 p2 p3 : List Char) (h m s : ℤ)
    (hsp : splitOnChar ':' l = [p1, p2, p3])
    (h1 : pyInt p1 = some h) (h2 : pyInt p2 = some m) (h3 : pyInt p3 = some s)
    (hc : ¬(60 ≤ m ∨ 60 ≤ s ∨ h < 0 ∨ m < 0 ∨ s < 0)) :
    hms_to_seconds l = h * 3600 + m * 60 + s := by
  unfold hms_to_seconds
  simp only [hsp, h1, h2, h3]
  rw [if_neg hc]

lemma hms_rejects_or (l : List Char) : hms_to_seconds l = -1 ∨
    (0 ≤ hms_to_seconds l ∧
      ∃ (p1 p2 p3 : List Char) (h m s : ℤ),
        splitOnChar ':' l = [p1, p2, p3] ∧
        pyInt p1 = some h ∧ pyInt p2 = some m ∧ pyInt p3 = some s ∧
        0 ≤ h ∧ 0 ≤ m ∧ m < 60 ∧ 0 ≤ s ∧ s < 60 ∧
        hms_to_seconds l = h * 3600 + m * 60 + s) := by
  cases hsp : splitOnChar ':' l with
  | nil => left; unfold hms_to_seconds; simp only [hsp]
  | cons p1 t1 =>
    cases t1 with
    | nil => left; unfold hms_to_seconds; simp only [hsp]
    | cons p2 t2 =>
      cases t2 with
      | nil => left; unfold hms_to_seconds; simp only [hsp]
      | cons p3 t3 =>
        cases t3 with
        | cons p4 t4 => left; unfold hms_to_seconds; simp only [hsp]
        | nil =>
          cases hp1 : pyInt p1 with
          | none => left; unfold hms_to_seconds; simp only [hsp, hp1]
          | some h =>
            cases hp2 : pyInt p2 with
            | none => left; unfold hms_to_seconds; simp only [hsp, hp1, hp2]
            | some m =>
              cases hp3 : pyInt p3 with
              | none => left; unfold hms_to_seconds; simp only [hsp, hp1, hp2, hp3]
              | some s =>
                by_cases hc : 60 ≤ m ∨ 60 ≤ s ∨ h < 0 ∨ m < 0 ∨ s < 0
                · left
                  unfold hms_to_seconds
                  simp only [hsp, hp1, hp2, hp3]
                  rw [if_pos hc]
                · right
                  have heq : hms_to_seconds l = h * 3600 + m * 60 + s :=
                    hms_accepts l p1 p2 p3 h m s hsp hp1 hp2 hp3 hc
                  push_neg at hc
                  exact ⟨by omega, p1, p2, p3, h, m, s, rfl, hp1, hp2, hp3,
                    hc.2.2.1, hc.2.2.2.1, hc.1, hc.2.2.2.2, hc.2.1, heq⟩

/-- C5: `hms_to_seconds` is a left inverse of `seconds_to_hms`: for every
integer `s ≥ 0` (every natural number), parsing the formatted `HH:MM:SS`
timecode gives back exactly `s`, hours field unbounded. -/
theorem hms_roundtrip (s : ℕ) : hms_to_seconds (seconds_to_hms (s : ℚ)) = (s : ℤ) := by
  have hsplitform : seconds_to_hms (s : ℚ) =
      pad2 (natToChars (s / 3600)) ++ ':' ::
        (pad2 (natToChars (s % 3600 / 60)) ++ ':' :: pad2 (natToChars (s % 60))) := by
    unfold seconds_to_hms intSecondsToHMS
    have e1 : Int.fdiv ((s : ℕ) : ℤ) 3600 = ((s / 3600 : ℕ) : ℤ) := by
      rw [Int.fdiv_eq_ediv _ (by norm_num)]
      omega
    have e2 : Int.fmod ((s : ℕ) : ℤ) 3600 = ((s % 3600 : ℕ) : ℤ) := by
      rw [Int.fmod_eq_emod _ (by norm_num)]
      omega
    have e3 : Int.fmod ((s : ℕ) : ℤ) 60 = ((s % 60 : ℕ) : ℤ) := by
      rw [Int.fmod_eq_emod _ (by norm_num)]
      omega
    have e4 : Int.fdiv (((s % 3600 : ℕ) : ℤ)) 60 = ((s % 3600 / 60 : ℕ) : ℤ) := by
      rw [Int.fdiv_eq_ediv _ (by norm_num)]
      omega
    rw [pyTrunc_natCast, e1, e2, e4, e3,
      intRepr_natCast, intRepr_natCast, intRepr_natCast]
  have hdA := pad2_all_digit (natToChars_all_digit (s / 3600))
  have hdB := pad2_all_digit (natToChars_all_digit (s % 3600 / 60))
  have hdC := pad2_all_digit (natToChars_all_digit (s % 60))
  have hsp : splitOnChar ':' (pad2 (natToChars (s / 3600)) ++ ':' ::
      (pad2 (natToChars (s % 3600 / 60)) ++ ':' :: pad2 (natToChars (s % 60)))) =
      [pad2 (natToChars (s / 3600)), pad2 (natToChars (s % 3600 / 60)),
        pad2 (natToChars (s % 60))] := by
    rw [splitOnChar_append _ _ (fun c hc => (isDigit_props (hdA c hc)).2.2.2.2),
      splitOnChar_append _ _ (fun c hc => (isDigit_props (hdB c hc)).2.2.2.2),
      splitOnChar_of_not_mem (fun c hc => (isDigit_props (hdC c hc)).2.2.2.2)]
  have hpA : pyInt (pad2 (natToChars (s / 3600))) = some ((s / 3600 : ℕ) : ℤ) := by
    rw [pyInt_digits (pad2_ne_nil (natToChars_ne_nil _)) hdA,
      parseDigits_pad2, parseDigits_natToChars]
  have hpB : pyInt (pad2 (natToChars (s % 3600 / 60))) =
      some ((s % 3600 / 60 : ℕ) : ℤ) := by
    rw [pyInt_digits (pad2_ne_nil (natToChars_ne_nil _)) hdB,
      parseDigits_pad2, parseDigits_natToChars]
  have hpC : pyInt (pad2 (natToChars (s % 60))) = some ((s % 60 : ℕ) : ℤ) := by
    rw [pyInt_digits (pad2_ne_nil (natToChars_ne_nil _)) hdC,
      parseDigits_pad2, parseDigits_natToChars]
  rw [hsplitform, hms_accepts _ _ _ _ _ _ _ hsp hpA hpB hpC (by omega)]
  omega

/-- C6 (amended): `hms_to_seconds` accepts exactly the strings splitting on
`:` into three parts each accepted by Python's `int()` — which also tolerates
surrounding whitespace, a single sign and underscore digit grouping, slightly
more than the literal digit pattern `H:M:S` (see the counterexample theorem) —
with hours non-negative and `0 ≤ minutes, seconds < 60`, returning
`h*3600 + m*60 + s ≥ 0`; every other input yields the invalid-format signal
`-1`; in particular "25:61:00", "1:2" and "ab:cd:ef" all yield `-1`. -/
theorem hms_acceptance_characterization :
    (∀ (l p1 p2 p3 : List Char) (h m s : ℤ),
        splitOnChar ':' l = [p1, p2, p3] →
        pyInt p1 = some h → pyInt p2 = some m → pyInt p3 = some s →
        0 ≤ h → 0 ≤ m → m < 60 → 0 ≤ s → s < 60 →
        hms_to_seconds l = h * 3600 + m * 60 + s) ∧
    (∀ l : List Char, hms_to_seconds l = -1 ∨
        (0 ≤ hms_to_seconds l ∧
          ∃ (p1 p2 p3 : List Char) (h m s : ℤ),
            splitOnChar ':' l = [p1, p2, p3] ∧
            pyInt p1 = some h ∧ pyInt p2 = some m ∧ pyInt p3 = some s ∧
            0 ≤ h ∧ 0 ≤ m ∧ m < 60 ∧ 0 ≤ s ∧ s < 60 ∧
            hms_to_seconds l = h * 3600 + m * 60 + s)) ∧
    (hms_to_seconds "25:61:00".data = -1 ∧ hms_to_seconds "1:2".data = -1 ∧
      hms_to_seconds "ab:cd:ef".data = -1) := by
  refine ⟨?_, hms_rejects_or, by decide, by decide, by decide⟩
  intro l p1 p2 p3 h m s hsp h1 h2 h3 hh hm hmlt hs hslt
  exact hms_accepts l p1 p2 p3 h m s hsp h1 h2 h3 (by omega)

/-- Witness for C6: a concrete accepted timecode evaluates per the formula. -/
theorem hms_acceptance_characterization_witness :
    hms_to_seconds "07:08:09".data = 7 * 3600 + 8 * 60 + 9 :=
  hms_acceptance_characterization.1 "07:08:09".data "07".data "08".data "09".data
    7 8 9 (by decide) (by decide) (by decide) (by decide)
    (by decide) (by decide) (by decide) (by decide) (by decide)

end CCTV
